import Mathlib

/-
  Verification development for the AeroStack aerodynamic solver core
  (src/server/solvers/vortex_panel.py, src/server/solvers/thin_airfoil.py).

  The Python code computes with IEEE floats; the embedding idealises every
  float as a real number, keeps all control flow (branches, list shapes,
  error paths) exact, and models `np.linalg.lstsq` by a least-squares
  characterisation (see `IsLstsqSol`).  Inputs are real-number lists; the
  Python indexing expressions `a[0]`, `a[-1]`, `a[1:]` become `headD`,
  `getLastD`, `tail` (the default value is only reachable on empty inputs,
  where the Python would raise an IndexError).
-/

namespace AeroStack

open scoped Classical
open Matrix

/-- Tolerance test of numpy's `np.isclose(a, b)` with default
`rtol = 1e-5`, `atol = 1e-8`: `|a - b| <= atol + rtol * |b|`. -/
def isclose (a b : ℝ) : Prop := |a - b| ≤ 1e-8 + 1e-5 * |b|

/-- The trailing-edge test of `_build_closed_surface` (line 25):
`np.isclose(xl[-1], xu[0]) and np.isclose(yl[-1], yu[0])`. -/
def teClosedCond (xu yu xl yl : List ℝ) : Prop :=
  isclose (xl.getLastD 0) (xu.headD 0) ∧ isclose (yl.getLastD 0) (yu.headD 0)

/-- The x-array after the trailing-edge step and concatenation of
`_build_closed_surface` (lines 25-28): the lower x-array gets `xu[0]`
appended when the trailing edge is open, then `x = xu ++ xl[1:]`. -/
noncomputable def preX (xu yu xl yl : List ℝ) : List ℝ :=
  xu ++ (if teClosedCond xu yu xl yl then xl else xl ++ [xu.headD 0]).tail

/-- The y-array after the trailing-edge step and concatenation of
`_build_closed_surface` (lines 25-29). -/
noncomputable def preY (xu yu xl yl : List ℝ) : List ℝ :=
  yu ++ (if teClosedCond xu yu xl yl then yl else yl ++ [yu.headD 0]).tail

/-- The closure test of `_build_closed_surface` (line 30):
`np.isclose(x[0], x[-1]) and np.isclose(y[0], y[-1])`. -/
noncomputable def closedCond (xu yu xl yl : List ℝ) : Prop :=
  isclose ((preX xu yu xl yl).headD 0) ((preX xu yu xl yl).getLastD 0) ∧
  isclose ((preY xu yu xl yl).headD 0) ((preY xu yu xl yl).getLastD 0)

/-- Embedding of `_build_closed_surface` (vortex_panel.py lines 19-33):
stitch the upper surface (leading from the trailing edge) and the lower
surface, appending the upper surface's first point to the lower surface
when the trailing edge is open, dropping the lower surface's first point,
and appending a closing node when the concatenation is not already closed. -/
noncomputable def build_closed_surface (xu yu xl yl : List ℝ) :
    List ℝ × List ℝ :=
  (if closedCond xu yu xl yl then preX xu yu xl yl
   else preX xu yu xl yl ++ [(preX xu yu xl yl).headD 0],
   if closedCond xu yu xl yl then preY xu yu xl yl
   else preY xu yu xl yl ++ [(preY xu yu xl yl).headD 0])

/-- First coordinate array of the stitched surface. -/
noncomputable def stitchedX (xu yu xl yl : List ℝ) : List ℝ :=
  (build_closed_surface xu yu xl yl).1

/-- Second coordinate array of the stitched surface. -/
noncomputable def stitchedY (xu yu xl yl : List ℝ) : List ℝ :=
  (build_closed_surface xu yu xl yl).2

/-- Number of panels derived from a stitched node array
(`n_panels = len(length)` in `solve_vortex_panel`, which is one less than
the number of nodes). -/
def nPanels (xs : List ℝ) : ℕ := xs.length - 1

/-- Shoelace signed area of a closed point sequence (the sequence is
expected to repeat its first point at the end, as the stitched surface
does).  This is a specification-side notion used to state the winding
claims; the Python source computes no signed area anywhere. -/
noncomputable def signedArea (xs ys : List ℝ) : ℝ :=
  (((xs.zip ys).zip ((xs.zip ys).tail)).map
    (fun q => q.1.1 * q.2.2 - q.2.1 * q.1.2)).sum / 2

/-- Degree-to-radian conversion, `math.radians` / `np.radians`. -/
noncomputable def radians (x : ℝ) : ℝ := x * Real.pi / 180

/-- Radian-to-degree conversion, `math.degrees`. -/
noncomputable def degrees (x : ℝ) : ℝ := x * 180 / Real.pi

/-- Embedding of `np.linspace(a, b, n)` (endpoint included). -/
noncomputable def linspace (a b : ℝ) (n : ℕ) : List ℝ :=
  (List.range n).map (fun k => a + (b - a) * k / ((n : ℝ) - 1))

/-- Embedding of `np.trapz(ys, xs)`: the trapezoidal rule
`sum of (ys[i] + ys[i+1]) / 2 * (xs[i+1] - xs[i])` over consecutive pairs. -/
noncomputable def trapz (ys xs : List ℝ) : ℝ :=
  (((ys.zip ys.tail).zip (xs.zip xs.tail)).map
    (fun q => (q.1.1 + q.1.2) / 2 * (q.2.2 - q.2.1))).sum

/-- Result record of `solve_thin_airfoil` (thin_airfoil.py lines 11-16). -/
structure ThinAirfoilResult where
  alpha_l0_deg : ℝ
  cl : ℝ
  alpha_range_deg : List ℝ
  cl_curve : List ℝ

/-- The angular grid used by `solve_thin_airfoil` (line 39):
`theta = np.arccos(1 - 2 * camber_x)`, evaluated directly at the supplied
camber stations. -/
noncomputable def thetaGrid (camber_x : List ℝ) : List ℝ :=
  camber_x.map (fun xv => Real.arccos (1 - 2 * xv))

/-- The zero-lift angle computed by `solve_thin_airfoil` (lines 39-41):
`integrand = camber_dy_dx * np.cos(theta)` and
`alpha_l0 = -np.trapz(integrand, theta) / math.pi`. -/
noncomputable def alphaL0 (camber_x camber_dy_dx : List ℝ) : ℝ :=
  -(trapz
      (List.zipWith (fun d t => d * Real.cos t) camber_dy_dx (thetaGrid camber_x))
      (thetaGrid camber_x)) / Real.pi

/-- The monotonicity condition enforced by `_ensure_monotonic`
(thin_airfoil.py lines 19-25): `np.all(np.diff(arr) >= 0)`, i.e. every
adjacent pair is non-decreasing.  The function's one-dimensionality check
is always satisfied by a list and is not modelled. -/
def ensureMonotonicOk (values : List ℝ) : Prop :=
  List.Chain' (fun a b => a ≤ b) values

/-- The angle-sample list actually used by `solve_thin_airfoil`
(lines 35-36): a `None` argument defaults to `np.linspace(-10, 15, 30)`. -/
noncomputable def curveOf (alpha_curve_deg : Option (List ℝ)) : List ℝ :=
  match alpha_curve_deg with
  | none => linspace (-10) 15 30
  | some c => c

/-- Embedding of `solve_thin_airfoil` (thin_airfoil.py lines 28-53).
The `ValueError` raised by `_ensure_monotonic` becomes `Except.error`. -/
noncomputable def solve_thin_airfoil (alpha_deg : ℝ)
    (camber_x camber_dy_dx : List ℝ) (alpha_curve_deg : Option (List ℝ)) :
    Except String ThinAirfoilResult :=
  if ensureMonotonicOk (curveOf alpha_curve_deg) then
    Except.ok
      { alpha_l0_deg := degrees (alphaL0 camber_x camber_dy_dx)
        cl := 2 * Real.pi * (radians alpha_deg - alphaL0 camber_x camber_dy_dx)
        alpha_range_deg := curveOf alpha_curve_deg
        cl_curve := (curveOf alpha_curve_deg).map
          (fun a => 2 * Real.pi * (radians a - alphaL0 camber_x camber_dy_dx)) }
  else
    Except.error "Angles must be sorted in ascending order"

/-- Modelled from the spec: the zero-lift angle as the claim states it,
`alpha_0 = -(1/pi) * trapz of (dz/dx)(theta) * (1 - cos theta) d theta`,
written here over an arbitrary angular grid so it can be compared with the
code's integral on the code's own grid. -/
noncomputable def specGlauertAlphaL0 (camber_dy_dx thetas : List ℝ) : ℝ :=
  -(trapz
      (List.zipWith (fun d t => d * (1 - Real.cos t)) camber_dy_dx thetas)
      thetas) / Real.pi

/-- Two-argument arctangent in numpy's convention, embedded as the
argument of the complex number `dx + dy*i` (range `(-pi, pi]`, and
`atan2 0 0 = 0` like `np.arctan2`). -/
noncomputable def atan2 (dy dx : ℝ) : ℝ := Complex.arg ⟨dx, dy⟩

/-- Panel x-extent `dx = x[j+1] - x[j]` (`_panel_geometry`, line 39). -/
noncomputable def panelDx (xs : List ℝ) (j : ℕ) : ℝ :=
  xs.getD (j + 1) 0 - xs.getD j 0

/-- Panel y-extent `dy = y[j+1] - y[j]` (`_panel_geometry`, line 40). -/
noncomputable def panelDy (ys : List ℝ) (j : ℕ) : ℝ :=
  ys.getD (j + 1) 0 - ys.getD j 0

/-- Panel length `np.hypot(dx, dy)` (`_panel_geometry`, line 41). -/
noncomputable def panelLen (xs ys : List ℝ) (j : ℕ) : ℝ :=
  Real.sqrt (panelDx xs j ^ 2 + panelDy ys j ^ 2)

/-- Panel inclination `beta = np.arctan2(dy, dx)` (line 42). -/
noncomputable def panelBeta (xs ys : List ℝ) (j : ℕ) : ℝ :=
  atan2 (panelDy ys j) (panelDx xs j)

/-- Tangent x-component `tx = cos(beta)` (line 43). -/
noncomputable def tanX (xs ys : List ℝ) (j : ℕ) : ℝ :=
  Real.cos (panelBeta xs ys j)

/-- Tangent y-component `ty = sin(beta)` (line 44). -/
noncomputable def tanY (xs ys : List ℝ) (j : ℕ) : ℝ :=
  Real.sin (panelBeta xs ys j)

/-- Normal x-component `nx = ty` (line 45). -/
noncomputable def norX (xs ys : List ℝ) (j : ℕ) : ℝ := tanY xs ys j

/-- Normal y-component `ny = -tx` (line 46). -/
noncomputable def norY (xs ys : List ℝ) (j : ℕ) : ℝ := -tanX xs ys j

/-- Control point x `xc = 0.5 * (x[j] + x[j+1])` (line 47). -/
noncomputable def ctrlX (xs : List ℝ) (j : ℕ) : ℝ :=
  0.5 * (xs.getD j 0 + xs.getD (j + 1) 0)

/-- Control point y `yc = 0.5 * (y[j] + y[j+1])` (line 48). -/
noncomputable def ctrlY (ys : List ℝ) (j : ℕ) : ℝ :=
  0.5 * (ys.getD j 0 + ys.getD (j + 1) 0)

/-- Embedding of `_point_vortex_velocity` (vortex_panel.py lines 58-65):
velocity induced at the field point `(px, py)` by a unit point vortex at
`(x, y)`; both components are set to `0` by `np.where(r2 > 0, ..., 0.0)`
when the squared distance vanishes. -/
noncomputable def point_vortex_velocity (px py x y : ℝ) : ℝ × ℝ :=
  let rx := px - x
  let ry := py - y
  let r2 := rx ^ 2 + ry ^ 2
  (-(1 / (2 * Real.pi)) * (if r2 > 0 then ry / r2 else 0),
   (1 / (2 * Real.pi)) * (if r2 > 0 then rx / r2 else 0))

/-- Sub-panel quadrature abscissae
`np.linspace(0.0, 1.0, sub, endpoint=False) + 1.0 / (sub + 1)`
(vortex_panel.py line 89). -/
noncomputable def segPoints (sub : ℕ) : List ℝ :=
  (List.range sub).map (fun k => (k : ℝ) / (sub : ℝ) + 1 / ((sub : ℝ) + 1))

/-- Sum over panel `j`'s quadrature points of the normal-velocity component
induced at control point `i` (`v_normal = u * nx[i] + v * ny[i]` summed over
the sub-panel vortices, lines 93-98). -/
noncomputable def vnSum (xs ys : List ℝ) (sub : ℕ) (i j : ℕ) : ℝ :=
  ((segPoints sub).map (fun s =>
    let px := xs.getD j 0 + (xs.getD (j + 1) 0 - xs.getD j 0) * s
    let py := ys.getD j 0 + (ys.getD (j + 1) 0 - ys.getD j 0) * s
    let uv := point_vortex_velocity (ctrlX xs i) (ctrlY ys i) px py
    uv.1 * norX xs ys i + uv.2 * norY xs ys i)).sum

/-- Sum over panel `j`'s quadrature points of the tangential-velocity
component induced at control point `i` (`v_tangent = u * tx[i] + v * ty[i]`
summed over the sub-panel vortices, lines 93-99). -/
noncomputable def vtSum (xs ys : List ℝ) (sub : ℕ) (i j : ℕ) : ℝ :=
  ((segPoints sub).map (fun s =>
    let px := xs.getD j 0 + (xs.getD (j + 1) 0 - xs.getD j 0) * s
    let py := ys.getD j 0 + (ys.getD (j + 1) 0 - ys.getD j 0) * s
    let uv := point_vortex_velocity (ctrlX xs i) (ctrlY ys i) px py
    uv.1 * tanX xs ys i + uv.2 * tanY xs ys i)).sum

/-- The assembled influence matrix `A` of `solve_vortex_panel`
(lines 82-99): `n_panels` flow-tangency rows
`A[i, j] = length[j] / sub * sum of v_normal`, plus the appended row
`A[n, j] = influence_t[0].sum() + influence_t[-1].sum()` built from the
tangential influence at the first and last control points.  `sub` is
`max 1 panel_subdivisions` (line 85). -/
noncomputable def influenceMatrix (xs ys : List ℝ) (panel_subdivisions : ℕ) :
    Matrix (Fin (nPanels xs + 1)) (Fin (nPanels xs)) ℝ :=
  fun i j =>
    let sub := max 1 panel_subdivisions
    if (i : ℕ) < nPanels xs then
      panelLen xs ys j / (sub : ℝ) * vnSum xs ys sub (i : ℕ) j
    else
      panelLen xs ys j / (sub : ℝ) * vtSum xs ys sub 0 j
        + panelLen xs ys j / (sub : ℝ) * vtSum xs ys sub (nPanels xs - 1) j

/-- The assembled right-hand side `b` of `solve_vortex_panel`
(lines 101-106): tangency rows
`b[i] = -normals[i,0]*v_inf[0] - normals[i,1]*v_inf[1]` and the appended
Kutta row `b[n] = -(t0 . v_inf) - (t_last . v_inf)` built from the first
and last panel tangents. -/
noncomputable def rhsVec (xs ys : List ℝ) (alpha_deg : ℝ) :
    Fin (nPanels xs + 1) → ℝ :=
  fun i =>
    let ar := radians alpha_deg
    let vx := Real.cos ar
    let vy := Real.sin ar
    if (i : ℕ) < nPanels xs then
      -(norX xs ys (i : ℕ)) * vx - norY xs ys (i : ℕ) * vy
    else
      -(tanX xs ys 0 * vx + tanY xs ys 0 * vy)
        - (tanX xs ys (nPanels xs - 1) * vx + tanY xs ys (nPanels xs - 1) * vy)

/-- Squared residual of a candidate solution of the linear system,
`sum of (A g - b)[i]^2`.  The Euclidean residual is what
`np.linalg.lstsq` minimises. -/
noncomputable def sqResid {m n : ℕ} (A : Matrix (Fin m) (Fin n) ℝ)
    (b : Fin m → ℝ) (g : Fin n → ℝ) : ℝ :=
  ∑ i, (A.mulVec g i - b i) ^ 2

/-- A least-squares solution: one whose squared residual is minimal.
This characterises the solution `np.linalg.lstsq(A, b)` returns (numpy
additionally picks the minimum-norm minimiser; that refinement is not
needed by the claims and is not modelled). -/
def IsLstsqSol {m n : ℕ} (A : Matrix (Fin m) (Fin n) ℝ) (b : Fin m → ℝ)
    (g : Fin n → ℝ) : Prop :=
  ∀ z : Fin n → ℝ, sqResid A b g ≤ sqResid A b z

/-- Embedding of `np.linalg.lstsq(A, b)[0]` (line 108): a chosen
least-squares solution of the system. -/
noncomputable def lstsq {m n : ℕ} (A : Matrix (Fin m) (Fin n) ℝ)
    (b : Fin m → ℝ) : Fin n → ℝ :=
  if h : ∃ g, IsLstsqSol A b g then h.choose else fun _ => 0

/-- Result record of `solve_vortex_panel` (vortex_panel.py lines 11-16). -/
structure PanelResult where
  cp_x : List ℝ
  cp : List ℝ
  gamma : List ℝ
  cl : ℝ

/-- Embedding of `solve_vortex_panel` (vortex_panel.py lines 68-133):
stitch the surfaces, assemble the influence matrix and right-hand side,
solve by least squares, reconstruct the tangential velocity
(`vt[i] = sum_j gamma[j]*length[j]/sub*v_tangent + tangents[i] . v_inf`),
and return `cp = 1 - vt^2`, the circulation list and `cl = 2 * sum of
gamma[j]*length[j]`.  No input validation of any kind is performed. -/
noncomputable def solve_vortex_panel (xu yu xl yl : List ℝ)
    (alpha_deg : ℝ) (panel_subdivisions : ℕ) : PanelResult :=
  let xs := stitchedX xu yu xl yl
  let ys := stitchedY xu yu xl yl
  let n := nPanels xs
  let sub := max 1 panel_subdivisions
  let ar := radians alpha_deg
  let gamma := lstsq (influenceMatrix xs ys panel_subdivisions)
    (rhsVec xs ys alpha_deg)
  let vt : ℕ → ℝ := fun i =>
    (∑ j : Fin n, gamma j * (panelLen xs ys j / (sub : ℝ)) * vtSum xs ys sub i j)
      + tanX xs ys i * Real.cos ar + tanY xs ys i * Real.sin ar
  { cp_x := (List.range n).map (fun i => ctrlX xs i)
    cp := (List.range n).map (fun i => 1 - vt i ^ 2)
    gamma := List.ofFn gamma
    cl := 2 * ∑ j : Fin n, gamma j * panelLen xs ys j }

/-- Modelled from the spec: the flow-tangency right-hand side as the spec
states it, `b[i] = -(freestream velocity) . (panel i's outward normal)`. -/
noncomputable def specFlowTangencyRHS (vx vy nx ny : ℝ) : ℝ :=
  -(vx * nx + vy * ny)

theorem isclose_refl (a : ℝ) : isclose a a := by
  simp only [isclose, sub_self, abs_zero]
  positivity

theorem head_isclose_last_of_append (x : List ℝ) :
    isclose ((x ++ [x.headD 0]).headD 0) ((x ++ [x.headD 0]).getLastD 0) := by
  cases x with
  | nil => simpa using isclose_refl 0
  | cons a t =>
      have h1 : ((a :: t) ++ [(a :: t).headD 0]).headD 0 = a := by simp
      have h2 : ((a :: t) ++ [(a :: t).headD 0]).getLastD 0 = a := by
        simp only [List.headD_cons]
        rw [List.getLastD_concat]
      rw [h1, h2]
      exact isclose_refl a

/-- C9: for every pair of upper and lower coordinate arrays, the surface
assembled by `_build_closed_surface` is closed: its first and last points
coincide within floating tolerance (`np.isclose` on both coordinates),
a closing node being appended whenever the concatenated surface is open. -/
theorem c9_stitched_surface_closed (xu yu xl yl : List ℝ) :
    isclose ((stitchedX xu yu xl yl).headD 0) ((stitchedX xu yu xl yl).getLastD 0) ∧
    isclose ((stitchedY xu yu xl yl).headD 0) ((stitchedY xu yu xl yl).getLastD 0) := by
  unfold stitchedX stitchedY build_closed_surface
  by_cases h : closedCond xu yu xl yl
  · rw [if_pos h, if_pos h]
    exact h
  · rw [if_neg h, if_neg h]
    exact ⟨head_isclose_last_of_append _, head_isclose_last_of_append _⟩

/-- C10: `_point_vortex_velocity` is total in the coincident case: when the
field point coincides with the vortex location (squared distance zero),
both induced-velocity components are defined to be `0` rather than a
division by zero. -/
theorem c10_point_vortex_zero_at_coincident (px py x y : ℝ)
    (hx : px = x) (hy : py = y) :
    point_vortex_velocity px py x y = (0, 0) := by
  subst hx
  subst hy
  simp [point_vortex_velocity]

theorem c10_point_vortex_zero_at_coincident_witness :
    (1 : ℝ) = 1 ∧ (2 : ℝ) = 2 ∧ point_vortex_velocity 1 2 1 2 = (0, 0) :=
  ⟨rfl, rfl, c10_point_vortex_zero_at_coincident 1 2 1 2 rfl rfl⟩

theorem stitched_square_coarse :
    stitchedX [2, 0] [0, 0] [0, 0, 2] [0, 2, 2] = [2, 0, 0, 2, 2] ∧
    stitchedY [2, 0] [0, 0] [0, 0, 2] [0, 2, 2] = [0, 0, 2, 2, 0] := by
  have hte : ¬ teClosedCond [2, 0] [0, 0] [0, 0, 2] [0, 2, 2] := by
    intro h
    have h2 := h.2
    norm_num [isclose] at h2
  have hx : preX [2, 0] [0, 0] [0, 0, 2] [0, 2, 2] = [2, 0, 0, 2, 2] := by
    simp [preX, if_neg hte]
  have hy : preY [2, 0] [0, 0] [0, 0, 2] [0, 2, 2] = [0, 0, 2, 2, 0] := by
    simp [preY, if_neg hte]
  have hcl : closedCond [2, 0] [0, 0] [0, 0, 2] [0, 2, 2] := by
    unfold closedCond
    rw [hx, hy]
    norm_num [isclose]
  constructor
  · rw [stitchedX, build_closed_surface]
    simpa [if_pos hcl] using hx
  · rw [stitchedY, build_closed_surface]
    simpa [if_pos hcl] using hy

theorem stitched_square_fine :
    stitchedX [2, 1, 0] [0, 0, 0] [0, 0, 2] [0, 2, 2] = [2, 1, 0, 0, 2, 2] ∧
    stitchedY [2, 1, 0] [0, 0, 0] [0, 0, 2] [0, 2, 2] = [0, 0, 0, 2, 2, 0] := by
  have hte : ¬ teClosedCond [2, 1, 0] [0, 0, 0] [0, 0, 2] [0, 2, 2] := by
    intro h
    have h2 := h.2
    norm_num [isclose] at h2
  have hx : preX [2, 1, 0] [0, 0, 0] [0, 0, 2] [0, 2, 2] = [2, 1, 0, 0, 2, 2] := by
    simp [preX, if_neg hte]
  have hy : preY [2, 1, 0] [0, 0, 0] [0, 0, 2] [0, 2, 2] = [0, 0, 0, 2, 2, 0] := by
    simp [preY, if_neg hte]
  have hcl : closedCond [2, 1, 0] [0, 0, 0] [0, 0, 2] [0, 2, 2] := by
    unfold closedCond
    rw [hx, hy]
    norm_num [isclose]
  constructor
  · rw [stitchedX, build_closed_surface]
    simpa [if_pos hcl] using hx
  · rw [stitchedY, build_closed_surface]
    simpa [if_pos hcl] using hy

theorem gamma_cp_lengths (xu yu xl yl : List ℝ) (alpha_deg : ℝ) (sub : ℕ) :
    (solve_vortex_panel xu yu xl yl alpha_deg sub).gamma.length
      = nPanels (stitchedX xu yu xl yl) ∧
    (solve_vortex_panel xu yu xl yl alpha_deg sub).cp.length
      = nPanels (stitchedX xu yu xl yl) := by
  constructor <;> simp [solve_vortex_panel]

/-- C1 (theorem for the code_bug record): `solve_vortex_panel` performs no
resampling of any kind.  Two raw descriptions of the same square,
one with an extra node on the upper surface, produce solutions with 4 and
5 circulation (and pressure-coefficient) entries respectively: the output
size tracks the raw input point count, and no caller-supplied panel count
is consulted (the solver does not even receive one). -/
theorem c1_panel_count_tracks_raw_input :
    (solve_vortex_panel [2, 0] [0, 0] [0, 0, 2] [0, 2, 2] 0 3).gamma.length = 4 ∧
    (solve_vortex_panel [2, 1, 0] [0, 0, 0] [0, 0, 2] [0, 2, 2] 0 3).gamma.length = 5 ∧
    (solve_vortex_panel [2, 0] [0, 0] [0, 0, 2] [0, 2, 2] 0 3).cp.length = 4 ∧
    (solve_vortex_panel [2, 1, 0] [0, 0, 0] [0, 0, 2] [0, 2, 2] 0 3).cp.length = 5 := by
  have hA := (gamma_cp_lengths [2, 0] [0, 0] [0, 0, 2] [0, 2, 2] 0 3)
  have hB := (gamma_cp_lengths [2, 1, 0] [0, 0, 0] [0, 0, 2] [0, 2, 2] 0 3)
  have hxA := stitched_square_coarse.1
  have hxB := stitched_square_fine.1
  refine ⟨?_, ?_, ?_, ?_⟩
  · rw [hA.1, hxA]; rfl
  · rw [hB.1, hxB]; rfl
  · rw [hA.2, hxA]; rfl
  · rw [hB.2, hxB]; rfl

/-- C5 (theorem for the code_bug record): a surface that stitches to only
2 points (fewer than 3) is not rejected: `solve_vortex_panel` returns a
`PanelResult` with one circulation and one pressure-coefficient entry for
it, rather than reporting any geometry error (no error path exists in the
solver). -/
theorem c5_short_surface_returns_result :
    (stitchedX [0] [0] [1] [0]).length = 2 ∧
    (solve_vortex_panel [0] [0] [1] [0] 0 3).gamma.length = 1 ∧
    (solve_vortex_panel [0] [0] [1] [0] 0 3).cp.length = 1 := by
  have hte : ¬ teClosedCond [0] [0] [1] [0] := by
    intro h
    have h1 := h.1
    norm_num [isclose] at h1
  have hx : preX [0] [0] [1] [0] = [0, 0] := by
    simp [preX, if_neg hte]
  have hy : preY [0] [0] [1] [0] = [0, 0] := by
    simp [preY, if_neg hte]
  have hcl : closedCond [0] [0] [1] [0] := by
    unfold closedCond
    rw [hx, hy]
    norm_num [isclose]
  have hsx : stitchedX [0] [0] [1] [0] = [0, 0] := by
    rw [stitchedX, build_closed_surface]
    simpa [if_pos hcl] using hx
  have h := gamma_cp_lengths [0] [0] [1] [0] 0 3
  refine ⟨by rw [hsx]; rfl, ?_, ?_⟩
  · rw [h.1, hsx]; rfl
  · rw [h.2, hsx]; rfl

/-- C2 (theorem for the code_bug record): no winding normalization exists.
A clockwise input square is stitched to exactly the input-ordered node
sequence, whose signed area is `-2` (still negative, i.e. still clockwise)
when it reaches panel derivation; no signed-area computation or point
reversal is performed anywhere in `_build_closed_surface`. -/
theorem c2_clockwise_input_stays_clockwise :
    stitchedX [1, 0] [0, 0] [0, 0, 1] [0, 2, 2] = [1, 0, 0, 1, 1] ∧
    stitchedY [1, 0] [0, 0] [0, 0, 1] [0, 2, 2] = [0, 0, 2, 2, 0] ∧
    signedArea (stitchedX [1, 0] [0, 0] [0, 0, 1] [0, 2, 2])
        (stitchedY [1, 0] [0, 0] [0, 0, 1] [0, 2, 2]) = -2 ∧
    signedArea (stitchedX [1, 0] [0, 0] [0, 0, 1] [0, 2, 2])
        (stitchedY [1, 0] [0, 0] [0, 0, 1] [0, 2, 2]) < 0 := by
  have hte : ¬ teClosedCond [1, 0] [0, 0] [0, 0, 1] [0, 2, 2] := by
    intro h
    have h2 := h.2
    norm_num [isclose] at h2
  have hx : preX [1, 0] [0, 0] [0, 0, 1] [0, 2, 2] = [1, 0, 0, 1, 1] := by
    simp [preX, if_neg hte]
  have hy : preY [1, 0] [0, 0] [0, 0, 1] [0, 2, 2] = [0, 0, 2, 2, 0] := by
    simp [preY, if_neg hte]
  have hcl : closedCond [1, 0] [0, 0] [0, 0, 1] [0, 2, 2] := by
    unfold closedCond
    rw [hx, hy]
    norm_num [isclose]
  have hsx : stitchedX [1, 0] [0, 0] [0, 0, 1] [0, 2, 2] = [1, 0, 0, 1, 1] := by
    rw [stitchedX, build_closed_surface]
    simpa [if_pos hcl] using hx
  have hsy : stitchedY [1, 0] [0, 0] [0, 0, 1] [0, 2, 2] = [0, 0, 2, 2, 0] := by
    rw [stitchedY, build_closed_surface]
    simpa [if_pos hcl] using hy
  have harea : signedArea [1, 0, 0, 1, 1] ([0, 0, 2, 2, 0] : List ℝ) = -2 := by
    norm_num [signedArea]
  refine ⟨hsx, hsy, ?_, ?_⟩
  · rw [hsx, hsy, harea]
  · rw [hsx, hsy, harea]; norm_num

theorem solve_thin_ok (alpha_deg : ℝ) (cx cd curve : List ℝ)
    (h : ensureMonotonicOk curve) :
    solve_thin_airfoil alpha_deg cx cd (some curve) =
      Except.ok
        { alpha_l0_deg := degrees (alphaL0 cx cd)
          cl := 2 * Real.pi * (radians alpha_deg - alphaL0 cx cd)
          alpha_range_deg := curve
          cl_curve := curve.map
            (fun a => 2 * Real.pi * (radians a - alphaL0 cx cd)) } := by
  unfold solve_thin_airfoil
  have hc : curveOf (some curve) = curve := rfl
  rw [hc, if_pos h]

theorem solve_thin_err (alpha_deg : ℝ) (cx cd curve : List ℝ)
    (h : ¬ ensureMonotonicOk curve) :
    solve_thin_airfoil alpha_deg cx cd (some curve) =
      Except.error "Angles must be sorted in ascending order" := by
  unfold solve_thin_airfoil
  have hc : curveOf (some curve) = curve := rfl
  rw [hc, if_neg h]

/-- C6: `solve_thin_airfoil` fails (with the validation error raised by
`_ensure_monotonic`, producing no `ThinAirfoilResult`) exactly when the
supplied angle-sample list is not sorted ascending; for every ascending
list it returns a result whose lift curve is `2*pi*(alpha - alpha_0)`
evaluated at each requested angle. -/
theorem c6_validation_iff_unsorted :
    (∀ (alpha_deg : ℝ) (cx cd curve : List ℝ),
      ¬ ensureMonotonicOk curve →
      solve_thin_airfoil alpha_deg cx cd (some curve) =
        Except.error "Angles must be sorted in ascending order") ∧
    (∀ (alpha_deg : ℝ) (cx cd curve : List ℝ),
      ensureMonotonicOk curve →
      solve_thin_airfoil alpha_deg cx cd (some curve) =
        Except.ok
          { alpha_l0_deg := degrees (alphaL0 cx cd)
            cl := 2 * Real.pi * (radians alpha_deg - alphaL0 cx cd)
            alpha_range_deg := curve
            cl_curve := curve.map
              (fun a => 2 * Real.pi * (radians a - alphaL0 cx cd)) }) :=
  ⟨fun a cx cd curve h => solve_thin_err a cx cd curve h,
   fun a cx cd curve h => solve_thin_ok a cx cd curve h⟩

theorem c6_validation_iff_unsorted_witness :
    (¬ ensureMonotonicOk [1, 0]) ∧
    solve_thin_airfoil 0 [0] [0] (some [1, 0]) =
      Except.error "Angles must be sorted in ascending order" ∧
    ensureMonotonicOk [0, 1] ∧
    solve_thin_airfoil 0 [0] [0] (some [0, 1]) =
      Except.ok
        { alpha_l0_deg := degrees (alphaL0 [0] [0])
          cl := 2 * Real.pi * (radians 0 - alphaL0 [0] [0])
          alpha_range_deg := [0, 1]
          cl_curve := ([0, 1] : List ℝ).map
            (fun a => 2 * Real.pi * (radians a - alphaL0 [0] [0])) } := by
  have hbad : ¬ ensureMonotonicOk [1, 0] := by norm_num [ensureMonotonicOk]
  have hgood : ensureMonotonicOk [0, 1] := by norm_num [ensureMonotonicOk]
  exact ⟨hbad, c6_validation_iff_unsorted.1 0 [0] [0] [1, 0] hbad,
    hgood, c6_validation_iff_unsorted.2 0 [0] [0] [0, 1] hgood⟩

/-- C7: the thin-airfoil lift coefficient is exactly linear in the angle
of attack with slope `2*pi` per radian, independent of the camber data:
any two successful solves over the same camber line satisfy
`Cl(alpha_2) - Cl(alpha_1) = 2*pi*(alpha_2_rad - alpha_1_rad)`. -/
theorem c7_lift_curve_linearity (a1 a2 : ℝ) (cx cd : List ℝ)
    (co : Option (List ℝ)) (r1 r2 : ThinAirfoilResult)
    (h1 : solve_thin_airfoil a1 cx cd co = Except.ok r1)
    (h2 : solve_thin_airfoil a2 cx cd co = Except.ok r2) :
    r2.cl - r1.cl = 2 * Real.pi * (radians a2 - radians a1) := by
  unfold solve_thin_airfoil at h1 h2
  by_cases h : ensureMonotonicOk (curveOf co)
  · rw [if_pos h] at h1 h2
    injection h1 with h1'
    injection h2 with h2'
    rw [← h1', ← h2']
    simp only []
    ring
  · rw [if_neg h] at h1
    exact absurd h1 (by simp)

theorem c7_lift_curve_linearity_witness :
    solve_thin_airfoil 0 [0] [0] (some [0]) =
      Except.ok
        { alpha_l0_deg := degrees (alphaL0 [0] [0])
          cl := 2 * Real.pi * (radians 0 - alphaL0 [0] [0])
          alpha_range_deg := [0]
          cl_curve := ([0] : List ℝ).map
            (fun a => 2 * Real.pi * (radians a - alphaL0 [0] [0])) } ∧
    solve_thin_airfoil 90 [0] [0] (some [0]) =
      Except.ok
        { alpha_l0_deg := degrees (alphaL0 [0] [0])
          cl := 2 * Real.pi * (radians 90 - alphaL0 [0] [0])
          alpha_range_deg := [0]
          cl_curve := ([0] : List ℝ).map
            (fun a => 2 * Real.pi * (radians a - alphaL0 [0] [0])) } ∧
    (2 * Real.pi * (radians 90 - alphaL0 [0] [0]))
      - (2 * Real.pi * (radians 0 - alphaL0 [0] [0]))
      = 2 * Real.pi * (radians 90 - radians 0) := by
  have hm : ensureMonotonicOk [0] := by simp [ensureMonotonicOk]
  have h1 := solve_thin_ok 0 [0] [0] [0] hm
  have h2 := solve_thin_ok 90 [0] [0] [0] hm
  refine ⟨h1, h2, ?_⟩
  have := c7_lift_curve_linearity 0 90 [0] [0] (some [0]) _ _ h1 h2
  simpa using this

theorem zipWith_all_zero (f : ℝ → ℝ → ℝ) (l1 l2 : List ℝ)
    (h : ∀ a ∈ l1, ∀ b ∈ l2, f a b = 0) :
    ∀ y ∈ List.zipWith f l1 l2, y = 0 := by
  induction l1 generalizing l2 with
  | nil => intro y hy; simp at hy
  | cons a t ih =>
      intro y hy
      cases l2 with
      | nil => simp at hy
      | cons b s =>
          simp only [List.zipWith_cons_cons, List.mem_cons] at hy
          rcases hy with rfl | hy
          · exact h a (by simp) b (by simp)
          · exact ih s (fun a' ha' b' hb' => h a' (by simp [ha']) b' (by simp [hb'])) y hy

theorem trapz_of_zero_integrand (ys xs : List ℝ) (h : ∀ y ∈ ys, y = 0) :
    trapz ys xs = 0 := by
  unfold trapz
  apply List.sum_eq_zero
  intro z hz
  obtain ⟨q, hq, rfl⟩ := List.mem_map.mp hz
  obtain ⟨⟨y1, y2⟩, ⟨x1, x2⟩⟩ := q
  obtain ⟨hqy, _⟩ := List.of_mem_zip hq
  obtain ⟨hy1, hy2⟩ := List.of_mem_zip hqy
  have e1 : y1 = 0 := h y1 hy1
  have e2 : y2 = 0 := h y2 (List.mem_of_mem_tail hy2)
  simp [e1, e2]

theorem alphaL0_of_zero_slope (cx cd : List ℝ) (hz : ∀ d ∈ cd, d = 0) :
    alphaL0 cx cd = 0 := by
  unfold alphaL0
  rw [trapz_of_zero_integrand]
  · simp
  · exact zipWith_all_zero _ _ _ (fun a ha b _ => by rw [hz a ha]; ring)

/-- C8: for a camber line whose slope samples are identically zero, the
zero-lift angle returned by `solve_thin_airfoil` is exactly `0` degrees
(in particular within the claim's `1e-3` radian tolerance). -/
theorem c8_symmetric_zero_lift_angle (alpha_deg : ℝ) (cx cd : List ℝ)
    (co : Option (List ℝ)) (r : ThinAirfoilResult)
    (hz : ∀ d ∈ cd, d = 0)
    (h : solve_thin_airfoil alpha_deg cx cd co = Except.ok r) :
    r.alpha_l0_deg = 0 ∧ |radians r.alpha_l0_deg| < 1e-3 := by
  unfold solve_thin_airfoil at h
  by_cases hm : ensureMonotonicOk (curveOf co)
  · rw [if_pos hm] at h
    injection h with h'
    have hdeg : r.alpha_l0_deg = 0 := by
      rw [← h']
      simp only []
      rw [alphaL0_of_zero_slope cx cd hz]
      simp [degrees]
    refine ⟨hdeg, ?_⟩
    rw [hdeg]
    simp only [radians, zero_mul, zero_div, abs_zero]
    norm_num
  · rw [if_neg hm] at h
    exact absurd h (by simp)

theorem c8_symmetric_zero_lift_angle_witness :
    (∀ d ∈ ([0, 0] : List ℝ), d = 0) ∧
    solve_thin_airfoil 0 [0, 1] [0, 0] (some [0]) =
      Except.ok
        { alpha_l0_deg := degrees (alphaL0 [0, 1] [0, 0])
          cl := 2 * Real.pi * (radians 0 - alphaL0 [0, 1] [0, 0])
          alpha_range_deg := [0]
          cl_curve := ([0] : List ℝ).map
            (fun a => 2 * Real.pi * (radians a - alphaL0 [0, 1] [0, 0])) } ∧
    degrees (alphaL0 [0, 1] [0, 0]) = 0 := by
  have hz : ∀ d ∈ ([0, 0] : List ℝ), d = 0 := by
    intro d hd
    simpa using hd
  have hm : ensureMonotonicOk [0] := by simp [ensureMonotonicOk]
  have h := solve_thin_ok 0 [0, 1] [0, 0] [0] hm
  refine ⟨hz, h, ?_⟩
  have := c8_symmetric_zero_lift_angle 0 [0, 1] [0, 0] (some [0]) _ hz h
  simpa using this.1

theorem thetaGrid_unit_interval : thetaGrid [0, 1] = [0, Real.pi] := by
  norm_num [thetaGrid, Real.arccos_one, Real.arccos_neg_one]

/-- C3 (counterexample): on the camber line with stations `[0, 1]` and
slopes `[1, 0]`, the angular grid `solve_thin_airfoil` integrates over is
exactly `[0, pi]` — it contains the exact endpoints `theta = 0` and
`theta = pi` (no epsilon offset) — and the computed zero-lift angle is
`-1/2`, while the claim's Glauert kernel `(dz/dx) * (1 - cos theta)`
integrated by the same trapezoidal rule over the same grid gives `0`:
the code does not compute the integral stated in the claim. -/
theorem c3_grid_has_endpoints_and_kernel_differs :
    thetaGrid [0, 1] = [0, Real.pi] ∧
    (thetaGrid [0, 1]).headD 99 = 0 ∧
    (thetaGrid [0, 1]).getLastD 99 = Real.pi ∧
    alphaL0 [0, 1] [1, 0] = -(1 / 2) ∧
    specGlauertAlphaL0 [1, 0] (thetaGrid [0, 1]) = 0 ∧
    alphaL0 [0, 1] [1, 0] ≠ specGlauertAlphaL0 [1, 0] (thetaGrid [0, 1]) := by
  have hg := thetaGrid_unit_interval
  have hcode : alphaL0 [0, 1] [1, 0] = -(1 / 2) := by
    unfold alphaL0
    rw [hg]
    have hz : List.zipWith (fun d t => d * Real.cos t) [1, 0] [0, Real.pi]
        = [1, 0] := by
      simp [Real.cos_zero, Real.cos_pi]
    rw [hz]
    have ht : trapz [1, 0] [0, Real.pi] = Real.pi / 2 := by
      unfold trapz
      simp
      ring
    rw [ht]
    field_simp
    ring
  have hspec : specGlauertAlphaL0 [1, 0] (thetaGrid [0, 1]) = 0 := by
    unfold specGlauertAlphaL0
    rw [hg]
    have hz : List.zipWith (fun d t => d * (1 - Real.cos t)) [1, 0] [0, Real.pi]
        = [0, 0] := by
      simp [Real.cos_zero, Real.cos_pi]
    rw [hz]
    have ht : trapz [0, 0] [0, Real.pi] = 0 := by
      unfold trapz
      simp
    rw [ht]
    simp
  refine ⟨hg, by rw [hg]; rfl, ?_, hcode, hspec, ?_⟩
  · rw [hg]
    simp [List.getLastD]
  · rw [hcode, hspec]
    norm_num

theorem zipWith_cos_arccos (cx : List ℝ) (hx : ∀ xv ∈ cx, 0 ≤ xv ∧ xv ≤ 1) :
    ∀ cd : List ℝ,
      List.zipWith (fun d t => d * Real.cos t) cd (thetaGrid cx)
        = List.zipWith (fun d xv => d * (1 - 2 * xv)) cd cx := by
  induction cx with
  | nil => intro cd; simp [thetaGrid]
  | cons x t ih =>
      intro cd
      cases cd with
      | nil => simp [thetaGrid]
      | cons d s =>
          have hx0 := hx x (by simp)
          have hcos : Real.cos (Real.arccos (1 - 2 * x)) = 1 - 2 * x :=
            Real.cos_arccos (by linarith [hx0.2]) (by linarith [hx0.1])
          simp only [thetaGrid, List.map_cons, List.zipWith_cons_cons, hcos]
          congr 1
          exact ih (fun xv hxv => hx xv (by simp [hxv])) s

/-- C3 (amended): `solve_thin_airfoil` computes the zero-lift angle as
`-(1/pi)` times the trapezoidal quadrature of the integrand
`(dz/dx) * cos theta` — equivalently `(dz/dx) * (1 - 2 x)` — against the
angular grid `theta = arccos(1 - 2 x)` evaluated directly at the supplied
camber stations, with the exact endpoints included whenever the stations
contain `0` or `1` and no epsilon offset applied. -/
theorem c3_amended_zero_lift_integral (cx cd : List ℝ)
    (hx : ∀ xv ∈ cx, 0 ≤ xv ∧ xv ≤ 1) :
    alphaL0 cx cd =
      -(trapz (List.zipWith (fun d xv => d * (1 - 2 * xv)) cd cx)
          (thetaGrid cx)) / Real.pi := by
  unfold alphaL0
  rw [zipWith_cos_arccos cx hx cd]

theorem c3_amended_zero_lift_integral_witness :
    (∀ xv ∈ ([0, 1] : List ℝ), 0 ≤ xv ∧ xv ≤ 1) ∧
    alphaL0 [0, 1] [5, 7] =
      -(trapz (List.zipWith (fun d xv => d * (1 - 2 * xv)) [5, 7] [0, 1])
          (thetaGrid [0, 1])) / Real.pi := by
  have hx : ∀ xv ∈ ([0, 1] : List ℝ), 0 ≤ xv ∧ xv ≤ 1 := by
    intro xv hxv
    simp only [List.mem_cons, List.mem_singleton, List.not_mem_nil, or_false] at hxv
    rcases hxv with rfl | rfl
    · norm_num
    · norm_num
  exact ⟨hx, c3_amended_zero_lift_integral [0, 1] [5, 7] hx⟩

theorem isLstsqSol_of_normal {m n : ℕ} (A : Matrix (Fin m) (Fin n) ℝ)
    (b : Fin m → ℝ) (g : Fin n → ℝ)
    (h : (Aᵀ * A).mulVec g = Aᵀ.mulVec b) : IsLstsqSol A b g := by
  intro z
  set e : Fin m → ℝ := fun i => A.mulVec g i - b i with he
  set d : Fin n → ℝ := z - g with hd
  have hAe : Aᵀ.mulVec (A.mulVec g - b) = 0 := by
    rw [Matrix.mulVec_sub, Matrix.mulVec_mulVec, h, sub_self]
  have hcross : ∑ i, A.mulVec d i * e i = 0 := by
    have h1 : ∀ i, A.mulVec d i * e i = ∑ j, A i j * d j * e i := by
      intro i
      rw [Matrix.mulVec, Matrix.dotProduct, Finset.sum_mul]
    calc ∑ i, A.mulVec d i * e i = ∑ i, ∑ j, A i j * d j * e i := by
          exact Finset.sum_congr rfl (fun i _ => h1 i)
      _ = ∑ j, ∑ i, A i j * d j * e i := Finset.sum_comm
      _ = ∑ j, d j * (Aᵀ.mulVec (A.mulVec g - b)) j := by
          refine Finset.sum_congr rfl (fun j _ => ?_)
          rw [Matrix.mulVec, Matrix.dotProduct, Finset.mul_sum]
          refine Finset.sum_congr rfl (fun i _ => ?_)
          simp [Matrix.transpose_apply, he]
          ring
      _ = 0 := by rw [hAe]; simp
  have hzd : A.mulVec z = fun i => A.mulVec g i + A.mulVec d i := by
    funext i
    have : z = g + d := by
      funext k
      simp [hd]
    rw [this, Matrix.mulVec_add]
    rfl
  have hterm : ∀ i, (A.mulVec z i - b i) ^ 2
      = (e i) ^ 2 + (A.mulVec d i) ^ 2 + 2 * (A.mulVec d i * e i) := by
    intro i
    rw [hzd]
    simp only [he]
    ring
  have hexp : sqResid A b z = sqResid A b g + ∑ i, (A.mulVec d i) ^ 2 := by
    unfold sqResid
    calc ∑ i, (A.mulVec z i - b i) ^ 2
        = ∑ i, ((e i) ^ 2 + (A.mulVec d i) ^ 2 + 2 * (A.mulVec d i * e i)) :=
          Finset.sum_congr rfl (fun i _ => hterm i)
      _ = (∑ i, (e i) ^ 2) + (∑ i, (A.mulVec d i) ^ 2)
            + 2 * ∑ i, (A.mulVec d i * e i) := by
          rw [Finset.sum_add_distrib, Finset.sum_add_distrib, ← Finset.mul_sum]
      _ = (∑ i, (A.mulVec g i - b i) ^ 2) + ∑ i, (A.mulVec d i) ^ 2 := by
          rw [hcross, mul_zero, add_zero]
  rw [hexp]
  have : 0 ≤ ∑ i, (A.mulVec d i) ^ 2 :=
    Finset.sum_nonneg (fun i _ => sq_nonneg _)
  linarith

theorem exists_normal_solution {m n : ℕ} (A : Matrix (Fin m) (Fin n) ℝ)
    (b : Fin m → ℝ) : ∃ g, (Aᵀ * A).mulVec g = Aᵀ.mulVec b := by
  have hle : LinearMap.range (Aᵀ * A).mulVecLin ≤ LinearMap.range (Aᵀ).mulVecLin := by
    rintro x ⟨v, rfl⟩
    exact ⟨A.mulVec v, by simp [Matrix.mulVecLin_apply, Matrix.mulVec_mulVec]⟩
  have hrank : (Aᵀ * A).rank = (Aᵀ).rank := by
    rw [Matrix.rank_transpose_mul_self, Matrix.rank_transpose]
  have heq : LinearMap.range (Aᵀ * A).mulVecLin = LinearMap.range (Aᵀ).mulVecLin := by
    apply Submodule.eq_of_le_of_finrank_le hle
    unfold Matrix.rank at hrank
    exact hrank.ge
  have hb : (Aᵀ).mulVec b ∈ LinearMap.range (Aᵀ).mulVecLin :=
    ⟨b, by rw [Matrix.mulVecLin_apply]⟩
  rw [← heq] at hb
  obtain ⟨g, hg⟩ := hb
  rw [Matrix.mulVecLin_apply] at hg
  exact ⟨g, hg⟩

theorem lstsq_isLstsqSol {m n : ℕ} (A : Matrix (Fin m) (Fin n) ℝ)
    (b : Fin m → ℝ) : IsLstsqSol A b (lstsq A b) := by
  obtain ⟨g, hg⟩ := exists_normal_solution A b
  have hex : ∃ g, IsLstsqSol A b g := ⟨g, isLstsqSol_of_normal A b g hg⟩
  unfold lstsq
  rw [dif_pos hex]
  exact hex.choose_spec

/-- C4: the assembled linear system is the augmented formulation: over any
node arrays, every one of the `nPanels` leading rows of the right-hand
side is the spec's flow-tangency value `-(freestream) . (outward normal)`,
the single appended row (and the matching appended matrix row) references
exactly the first and last panels of the ordered panel set, giving
`nPanels + 1` equations in `nPanels` unknowns (the types of
`influenceMatrix` and `rhsVec`), and the circulation strengths returned by
`solve_vortex_panel` are `lstsq` of that system, which is a true
least-squares minimiser of the residual rather than an exact inverse. -/
theorem c4_augmented_system_least_squares (xs ys xu yu xl yl : List ℝ)
    (alpha_deg : ℝ) (sub : ℕ) :
    (∀ i : Fin (nPanels xs),
      rhsVec xs ys alpha_deg i.castSucc
        = specFlowTangencyRHS (Real.cos (radians alpha_deg))
            (Real.sin (radians alpha_deg)) (norX xs ys i) (norY xs ys i)) ∧
    (rhsVec xs ys alpha_deg (Fin.last (nPanels xs))
        = specFlowTangencyRHS (Real.cos (radians alpha_deg))
            (Real.sin (radians alpha_deg)) (tanX xs ys 0) (tanY xs ys 0)
          + specFlowTangencyRHS (Real.cos (radians alpha_deg))
              (Real.sin (radians alpha_deg))
              (tanX xs ys (nPanels xs - 1)) (tanY xs ys (nPanels xs - 1))) ∧
    (∀ j : Fin (nPanels xs),
      influenceMatrix xs ys sub (Fin.last (nPanels xs)) j
        = panelLen xs ys j / ((max 1 sub : ℕ) : ℝ) * vtSum xs ys (max 1 sub) 0 j
          + panelLen xs ys j / ((max 1 sub : ℕ) : ℝ)
              * vtSum xs ys (max 1 sub) (nPanels xs - 1) j) ∧
    ((solve_vortex_panel xu yu xl yl alpha_deg sub).gamma
        = List.ofFn (lstsq
            (influenceMatrix (stitchedX xu yu xl yl) (stitchedY xu yu xl yl) sub)
            (rhsVec (stitchedX xu yu xl yl) (stitchedY xu yu xl yl) alpha_deg))) ∧
    IsLstsqSol (influenceMatrix xs ys sub) (rhsVec xs ys alpha_deg)
      (lstsq (influenceMatrix xs ys sub) (rhsVec xs ys alpha_deg)) := by
  refine ⟨?_, ?_, ?_, ?_, ?_⟩
  · intro i
    have hi : ((i.castSucc : Fin (nPanels xs + 1)) : ℕ) < nPanels xs := by
      simp only [Fin.coe_castSucc]
      exact i.isLt
    simp only [rhsVec]
    rw [if_pos hi]
    simp only [Fin.coe_castSucc, specFlowTangencyRHS]
    ring
  · have hl : ¬ (((Fin.last (nPanels xs)) : ℕ) < nPanels xs) := by
      simp
    simp only [rhsVec]
    rw [if_neg hl]
    simp only [specFlowTangencyRHS]
    ring
  · intro j
    have hl : ¬ (((Fin.last (nPanels xs)) : ℕ) < nPanels xs) := by
      simp
    simp only [influenceMatrix]
    rw [if_neg hl]
  · rfl
  · exact lstsq_isLstsqSol _ _


end AeroStack
